import Mathlib

/-
Verification development for the strategy-factory workflow orchestrator
(examples/strategy_factory): a step-based execution engine that runs
blueprint steps sequentially, executes the executables of a step
concurrently, feeds accumulated results forward, and applies a
determinism-gated caching policy to Render (Output) nodes.

The Python source is shallowly embedded below:
  - `Value` models Python/JSON data values (None, bool, str, int, dict, list);
  - association lists `List (String × Value)` model Python dicts, with
    `alookup`/`upsert` reproducing dict lookup and `d[k] = v` assignment
    (an assignment to an existing key keeps its position, a new key is
    appended, as in insertion-ordered Python dicts);
  - the four concrete executor backends and the script generator are
    opaque collaborators (structure `Executors`), as the spec treats them;
  - the engine of engine.py is embedded function by function with the
    source names (`_gather_inputs_from_previous_steps`,
    `_check_if_inputs_deterministic`, `_execute_executable`, ...);
  - `asyncio.gather` over one step is linearized: every unit of the step
    gathers its input and evaluates the determinism predicate against the
    snapshot of the result mapping taken at step entry (each coroutine
    runs its synchronous prefix before any sibling resumes from its first
    await), results of successful units are recorded afterwards, and the
    first failing unit of the step (in list order) aborts the run after
    the sibling results were recorded, exactly as
    `asyncio.gather(..., return_exceptions=True)` followed by the
    in-order error check does.
-/

namespace StrategyFactory

/-- Python/JSON data values, as stored in simulation inputs and results. -/
inductive Value where
  | null : Value
  | bool : Bool → Value
  | str : String → Value
  | int : Int → Value
  | dict : List (String × Value) → Value
  | arr : List Value → Value

/-- Dict lookup on an insertion-ordered association list. -/
def alookup {α : Type} : List (String × α) → String → Option α
  | [], _ => none
  | (k, v) :: rest, key => if k = key then some v else alookup rest key

/-- Python dict assignment `d[k] = v`: overwrite in place, or append a new key. -/
def upsert {α : Type} : List (String × α) → String → α → List (String × α)
  | [], key, v => [(key, v)]
  | (k, w) :: rest, key, v =>
      if k = key then (k, v) :: rest else (k, w) :: upsert rest key v

/-- Keys of an association list (dict iteration order). -/
def keysOf {α : Type} (l : List (String × α)) : List String :=
  l.map Prod.fst

/-- Whether a key is present in an association list. -/
def hasKey {α : Type} (l : List (String × α)) (k : String) : Bool :=
  (alookup l k).isSome

/-- Chart kinds of Render (Output) executables (models.ChartType). -/
inductive ChartType where
  | table | markdown | area_chart | number | line_chart | bar_chart | pie_chart
  deriving DecidableEq

/-- String value of a ChartType enum member (`chart_type.value`). -/
def chart_value : ChartType → String
  | .table => "table"
  | .markdown => "markdown"
  | .area_chart => "area_chart"
  | .number => "number"
  | .line_chart => "line_chart"
  | .bar_chart => "bar_chart"
  | .pie_chart => "pie_chart"

/-- Executable variants (models.py). The four variants of the source union
carry their source fields (id, name, optional description, plus the
per-variant payload). Constructor `raw` models a runtime object whose type
is none of the four `isinstance` targets (possible in Python's dynamic
model and handled by the dispatch fallback); it carries its id and the
rendering of its Python type. -/
inductive Executable where
  | sql : (id name : String) → (description : Option String) → (query : String) → Executable
  | python : (id name : String) → (description : Option String) → (script : String) → Executable
  | llm : (id name : String) → (description : Option String) →
      (system_prompt user_prompt_template : String) → Executable
  | output : (id name : String) → (description : Option String) → (chart_type : ChartType) →
      (visualization_description : String) → (cached_script : Option String) → Executable
  | raw : (id tyname : String) → Executable
  deriving DecidableEq

/-- The id of an executable. -/
def Executable.id : Executable → String
  | .sql i _ _ _ => i
  | .python i _ _ _ => i
  | .llm i _ _ _ _ => i
  | .output i _ _ _ _ _ => i
  | .raw i _ => i

/-- Whether the executable is a Generative (LLM) node
(`isinstance(executable, LLMExecutable)`). -/
def Executable.isLLM : Executable → Bool
  | .llm _ _ _ _ _ => true
  | _ => false

/-- Whether the executable is one of the deterministic (Query/Script) variants. -/
def Executable.isDetNode : Executable → Bool
  | .sql _ _ _ _ => true
  | .python _ _ _ _ => true
  | _ => false

mutual

/-- JSON serialization of a value, modelling `json.dumps` (the exact
whitespace of the Python rendering is not relied on by any claim; only
which values take the JSON path matters). -/
def json_dumps : Value → String
  | .null => "null"
  | .bool true => "true"
  | .bool false => "false"
  | .str s => "\"" ++ s ++ "\""
  | .int n => toString n
  | .arr xs => "[" ++ String.intercalate ", " (json_dumps_list xs) ++ "]"
  | .dict es => "\x7b" ++ String.intercalate ", " (json_dumps_entries es) ++ "\x7d"

/-- Serializations of the elements of a JSON array. -/
def json_dumps_list : List Value → List String
  | [] => []
  | v :: vs => json_dumps v :: json_dumps_list vs

/-- Serializations of the entries of a JSON object. -/
def json_dumps_entries : List (String × Value) → List String
  | [] => []
  | (k, v) :: es => ("\"" ++ k ++ "\": " ++ json_dumps v) :: json_dumps_entries es

end

/-- Python `str()` of a value. `str(None)` is "None", `str` of a string is
the string itself; container values only ever flow into the opaque script
generator as an informal schema reference, so their rendering is modelled
by the JSON serialization. -/
def py_str : Value → String
  | .null => "None"
  | .bool true => "True"
  | .bool false => "False"
  | .str s => s
  | .int n => toString n
  | .dict es => json_dumps (.dict es)
  | .arr xs => json_dumps (.arr xs)

/-- Opaque collaborator capabilities (spec section 6): the four executor
backends and the script generator. `chat_completion` is the OpenAI call
made inside `execute_llm`; `generate_python_script` is the effect of
`routes.executables.generate_python_executable` as seen by the engine
(the generated script text for a `(name, description, input_schema)`
request). `execute_output` is the render-script executor (its module is
not part of the sources; it is the opaque Script Executor of the spec). -/
structure Executors where
  execute_sql : String → Value → Except String Value
  execute_python : String → Value → Except String Value
  chat_completion : String → String → Except String String
  generate_python_script : String → String → String → Except String String
  execute_output : String → Value → Except String Value

/-- String rendering of the input injected into an LLM user prompt
(llm_executor.execute_llm): JSON text for dicts and lists, `str()`
otherwise. -/
def render_input : Value → String
  | .dict es => json_dumps (.dict es)
  | .arr xs => json_dumps (.arr xs)
  | v => py_str v

/-- The user prompt actually sent by `execute_llm`: if input data is
present (not None), every occurrence of the placeholder is replaced by
the rendering of the input; otherwise the template is sent unmodified. -/
def resolved_user_prompt (user_prompt_template : String) (input_data : Value) : String :=
  match input_data with
  | .null => user_prompt_template
  | v => user_prompt_template.replace "\x7binput\x7d" (render_input v)

/-- llm_executor.execute_llm: resolve the user prompt template and delegate
to the chat-completion collaborator; a collaborator failure is re-raised
wrapped as an LLM execution error. -/
def execute_llm (env : Executors) (system_prompt user_prompt_template : String)
    (input_data : Value) : Except String String :=
  match env.chat_completion system_prompt (resolved_user_prompt user_prompt_template input_data) with
  | .ok t => .ok t
  | .error m => .error ("LLM execution error: " ++ m)

/-- engine.ExecutionEngine._gather_inputs_from_previous_steps: if the
simulation records an explicit input for this id, use it verbatim;
otherwise None when nothing has completed yet, otherwise a copy of the
entire current result mapping. `results` is the snapshot the unit's
coroutine sees when it starts. -/
def _gather_inputs_from_previous_steps (sim_inputs results : List (String × Value))
    (current_exec_id : String) : Value :=
  match alookup sim_inputs current_exec_id with
  | some v => v
  | none =>
      match results with
      | [] => Value.null
      | _ => Value.dict results

/-- engine.ExecutionEngine._check_if_inputs_deterministic: true unless some
already-completed id corresponds to an LLM executable. During a run every
completed id was successfully looked up in the blueprint before it ran, so
the KeyError branch of the source loop is unreachable; a (never occurring)
unknown id is treated as not an LLM instance, exactly as the `isinstance`
test would classify any non-LLM object. -/
def _check_if_inputs_deterministic (execs : List (String × Executable))
    (results : List (String × Value)) : Bool :=
  results.all fun p =>
    match alookup execs p.fst with
    | some e => !e.isLLM
    | none => true

/-- Outcome of one unit of work: the (possibly cached-script-updated)
executables mapping, how many script-generator invocations the unit made,
and the unit's result or error. The executables mapping stands for the
blueprint's `executables` dict; the engine mutates the executable object
it holds (`executable.cached_script = script`), which is the same object
the store holds, so one mapping models both views. -/
structure UnitResult where
  execs : List (String × Executable)
  gen_calls : Nat
  outcome : Except String Value

/-- Python truthiness of the `cached_script` field: None and the empty
string are falsy. -/
def truthy_cached : Option String → Bool
  | none => false
  | some s => s != ""

/-- engine.ExecutionEngine._execute_executable: dispatch on the
executable's type. Query and Script delegate to their executor; Generative
resolves its prompt and delegates; Render applies the determinism-gated
caching policy of the source (reuse a truthy cached script when the run is
deterministic so far, otherwise invoke the script generator, persist the
fresh script onto the node only when the run is deterministic, then run
the script and return the script text as the unit's result); any other
runtime type is a fatal unknown-executable-type error. `exec_id` is the
key under which the engine found the executable in the blueprint mapping,
i.e. the entry that aliasing mutates on a cache fill. -/
def _execute_executable (env : Executors) (execs : List (String × Executable))
    (results : List (String × Value)) (exec_id : String) (ex : Executable)
    (input_data : Value) : UnitResult :=
  match ex with
  | .sql _ _ _ q => ⟨execs, 0, env.execute_sql q input_data⟩
  | .python _ _ _ s => ⟨execs, 0, env.execute_python s input_data⟩
  | .llm _ _ _ sp tmpl => ⟨execs, 0, (execute_llm env sp tmpl input_data).map Value.str⟩
  | .output oid oname odesc ct vdesc cached =>
      let is_det := _check_if_inputs_deterministic execs results
      let run_script := fun (execs2 : List (String × Executable)) (gen : Nat) (script : String) =>
        match env.execute_output script input_data with
        | .ok _ => UnitResult.mk execs2 gen (.ok (.str script))
        | .error m => UnitResult.mk execs2 gen (.error m)
      let generate := fun (_ : Unit) =>
        match env.generate_python_script (oname ++ " Script")
            ("Create " ++ chart_value ct ++ " visualization: " ++ vdesc)
            (py_str input_data) with
        | .error m => UnitResult.mk execs 1 (.error m)
        | .ok script =>
            let execs2 :=
              if is_det then
                upsert execs exec_id (.output oid oname odesc ct vdesc (some script))
              else execs
            run_script execs2 1 script
      match cached with
      | some s => if s != "" && is_det then run_script execs 0 s else generate ()
      | none => generate ()
  | .raw _ tyname => ⟨execs, 0, .error ("Unknown executable type: " ++ tyname)⟩

/-- engine.ExecutionEngine._execute_single, up to the point where the
result would be stored: look the executable up in the blueprint (a missing
id raises the dict KeyError), gather the unit's input against the step
snapshot, and dispatch. -/
def _execute_single (env : Executors) (sim_inputs : List (String × Value))
    (execs : List (String × Executable)) (results_snapshot : List (String × Value))
    (exec_id : String) : UnitResult :=
  match alookup execs exec_id with
  | none => ⟨execs, 0, .error ("KeyError: " ++ exec_id)⟩
  | some ex =>
      let input_data := _gather_inputs_from_previous_steps sim_inputs results_snapshot exec_id
      _execute_executable env execs results_snapshot exec_id ex input_data

/-- Engine state threaded through a run: the blueprint executables mapping
(mutable through cached-script fills), the accumulated result mapping
(`self.results`), and the number of script-generator invocations made so
far (the observable call count of the generator collaborator). -/
structure EngineState where
  execs : List (String × Executable)
  results : List (String × Value)
  gen_calls : Nat

/-- One step of the linearized `asyncio.gather`: run the units in list
order, each gathering input and checking determinism against the
step-entry snapshot `snapshot`, recording the results of successful units
and the error of the first failing unit (`Error executing {id}: {msg}`,
as `_execute_step` raises it). All units of the step run to completion
before the error is raised, so sibling results survive. -/
def step_go (env : Executors) (sim_inputs : List (String × Value))
    (snapshot : List (String × Value)) :
    List (String × Executable) → List (String × Value) → Nat → Option String →
    List String → EngineState × Option String
  | execs, results, gen, err, [] => (⟨execs, results, gen⟩, err)
  | execs, results, gen, err, exec_id :: rest =>
      match _execute_single env sim_inputs execs snapshot exec_id with
      | ⟨execs2, g, Except.ok v⟩ =>
          step_go env sim_inputs snapshot execs2 (upsert results exec_id v) (gen + g) err rest
      | ⟨execs2, g, Except.error m⟩ =>
          step_go env sim_inputs snapshot execs2 results (gen + g)
            (some (err.getD ("Error executing " ++ exec_id ++ ": " ++ m))) rest

/-- engine.ExecutionEngine._execute_step on one step's executable ids. -/
def _execute_step (env : Executors) (sim_inputs : List (String × Value))
    (st : EngineState) (executable_ids : List String) : EngineState × Option String :=
  step_go env sim_inputs st.results st.execs st.results st.gen_calls none executable_ids

/-- The sequential loop of engine.ExecutionEngine.execute over the
blueprint's steps: a step error stops the run (no further steps are
scheduled). -/
def engine_steps (env : Executors) (sim_inputs : List (String × Value)) :
    EngineState → List (List String) → EngineState × Option String
  | st, [] => (st, none)
  | st, ids :: rest =>
      match _execute_step env sim_inputs st ids with
      | (st2, none) => engine_steps env sim_inputs st2 rest
      | (st2, some m) => (st2, some m)

/-- engine.ExecutionEngine.execute: run the steps from an empty result
mapping; any step error is re-raised wrapped as an execution engine error.
The final engine state is returned alongside (the engine object retains
its `self.results` even when `execute` raises). -/
def engine_execute (env : Executors) (bp_execs : List (String × Executable))
    (steps : List (List String)) (sim_inputs : List (String × Value)) :
    EngineState × Option String :=
  match engine_steps env sim_inputs ⟨bp_execs, [], 0⟩ steps with
  | (st, none) => (st, none)
  | (st, some m) => (st, some ("Execution engine error: " ++ m))

/-- models.ExecutionStatus. -/
inductive ExecutionStatus where
  | pending | running | completed | failed
  deriving DecidableEq

/-- models.ChatMessage. -/
structure ChatMessage where
  role : String
  content : String
  deriving DecidableEq

/-- models.Simulation (timestamps modelled as abstract ticks). -/
structure Simulation where
  id : String
  blueprint_id : String
  inputs : List (String × Value)
  chat_history : List ChatMessage
  status : ExecutionStatus
  results : List (String × Value)
  error : Option String
  created_at : Nat
  updated_at : Nat

/-- models.ExecutionStep. -/
structure ExecutionStep where
  executable_ids : List String
  deriving DecidableEq

/-- models.Blueprint. -/
structure Blueprint where
  id : String
  name : String
  description : Option String
  executables : List (String × Executable)
  steps : List ExecutionStep

/-- routes.simulations.execute_simulation on an already-fetched simulation
and blueprint: mark the simulation running, run the engine, and on success
store status/results/updated_at while on failure store status Failed and
the error text (the result mapping of the simulation is not touched in the
failure branch of the source). The final engine state is also returned so
that the engine-internal result mapping stays observable. `now` stands for
`datetime.utcnow()`. -/
def execute_simulation (env : Executors) (bp : Blueprint) (sim : Simulation)
    (now : Nat) : Simulation × EngineState × Option String :=
  let running := { sim with status := ExecutionStatus.running, updated_at := now }
  let rr := engine_execute env bp.executables (bp.steps.map ExecutionStep.executable_ids)
      running.inputs
  match rr with
  | (st, none) =>
      ({ running with
          status := ExecutionStatus.completed, results := st.results, updated_at := now },
        st, none)
  | (st, some m) =>
      ({ running with
          status := ExecutionStatus.failed, error := some m, updated_at := now },
        st, some m)

/-- The in-memory store (storage.Storage), restricted to the two entity
kinds the verified routes touch. -/
structure Storage where
  executables : List (String × Executable)
  blueprints : List (String × Blueprint)

/-- models.CreateBlueprintRequest. -/
structure CreateBlueprintRequest where
  name : String
  description : Option String
  executable_ids : List String
  steps : List ExecutionStep

/-- The executable-fetch loop of routes.blueprints.create_blueprint: each
requested id is looked up in the store (a missing one aborts with the 404
detail text) and inserted into the blueprint's executables dict. -/
def fetch_executables (store_execs : List (String × Executable)) :
    List String → Except String (List (String × Executable))
  | [] => .ok []
  | eid :: rest =>
      match alookup store_execs eid with
      | none => .error ("Executable " ++ eid ++ " not found")
      | some e =>
          match fetch_executables store_execs rest with
          | .error m => .error m
          | .ok es => .ok (upsert es eid e)

/-- The step-validation loop shared by blueprint creation and step update:
the first executable id (in step order, then id order) that is not among
the known ids, if any. -/
def find_unknown_step_id (known : List String) : List ExecutionStep → Option String
  | [] => none
  | s :: rest =>
      match s.executable_ids.find? (fun eid => !known.contains eid) with
      | some bad => some bad
      | none => find_unknown_step_id known rest

/-- routes.blueprints.create_blueprint: fetch the requested executables,
validate every step id against the requested ids, and only then construct
and save the blueprint. Any rejection leaves the store unchanged (the
HTTPException is raised before `storage.save_blueprint`). `new_id` stands
for the generated uuid. -/
def create_blueprint (store : Storage) (new_id : String)
    (request : CreateBlueprintRequest) : Storage × Except String Blueprint :=
  match fetch_executables store.executables request.executable_ids with
  | .error m => (store, .error m)
  | .ok execs =>
      match find_unknown_step_id request.executable_ids request.steps with
      | some bad => (store, .error ("Step references unknown executable: " ++ bad))
      | none =>
          let bp : Blueprint := ⟨new_id, request.name, request.description, execs, request.steps⟩
          ({ store with blueprints := upsert store.blueprints new_id bp }, .ok bp)

/-- routes.blueprints.update_steps: fetch the blueprint, validate every new
step id against the blueprint's executables mapping, and only then replace
the steps and save. Any rejection leaves the store unchanged. -/
def update_steps (store : Storage) (blueprint_id : String)
    (steps : List ExecutionStep) : Storage × Except String Blueprint :=
  match alookup store.blueprints blueprint_id with
  | none => (store, .error "Blueprint not found")
  | some bp =>
      match find_unknown_step_id (keysOf bp.executables) steps with
      | some bad => (store, .error ("Step references unknown executable: " ++ bad))
      | none =>
          let bp2 := { bp with steps := steps }
          ({ store with blueprints := upsert store.blueprints bp.id bp2 }, .ok bp2)

theorem alookup_upsert_self {α : Type} (l : List (String × α)) (k : String) (v : α) :
    alookup (upsert l k v) k = some v := by
  induction l with
  | nil => simp [upsert, alookup]
  | cons p rest ih =>
      obtain ⟨k1, v1⟩ := p
      by_cases h : k1 = k
      · subst h; simp [upsert, alookup]
      · simp [upsert, alookup, h, ih]

theorem alookup_upsert_of_ne {α : Type} (l : List (String × α)) {k k2 : String} (v : α)
    (h : k ≠ k2) : alookup (upsert l k v) k2 = alookup l k2 := by
  induction l with
  | nil => simp [upsert, alookup, h]
  | cons p rest ih =>
      obtain ⟨k1, v1⟩ := p
      by_cases h1 : k1 = k
      · subst h1; simp [upsert, alookup, h]
      · by_cases h2 : k1 = k2
        · subst h2; simp [upsert, alookup, h1]
        · simp [upsert, alookup, h1, h2, ih]

theorem hasKey_upsert {α : Type} (l : List (String × α)) (k k2 : String) (v : α) :
    hasKey (upsert l k v) k2 = true ↔ (k2 = k ∨ hasKey l k2 = true) := by
  by_cases h : k = k2
  · subst h; simp [hasKey, alookup_upsert_self]
  · have hne : k2 ≠ k := fun hc => h hc.symm
    simp [hasKey, alookup_upsert_of_ne l v h, hne]

theorem hasKey_iff_mem_keysOf {α : Type} (l : List (String × α)) (k : String) :
    hasKey l k = true ↔ k ∈ keysOf l := by
  induction l with
  | nil => simp [hasKey, alookup, keysOf]
  | cons p rest ih =>
      obtain ⟨k1, v1⟩ := p
      by_cases h : k1 = k
      · subst h; simp [hasKey, alookup, keysOf]
      · have hne : ¬k = k1 := fun hc => h hc.symm
        simp [hasKey, alookup, keysOf, h, hne] at ih ⊢
        exact ih

theorem hasKey_of_mem {α : Type} {l : List (String × α)} {p : String × α} (h : p ∈ l) :
    hasKey l p.fst = true := by
  induction l with
  | nil => cases h
  | cons q rest ih =>
      obtain ⟨k1, v1⟩ := q
      rcases List.mem_cons.mp h with h1 | h1
      · subst h1; simp [hasKey, alookup]
      · by_cases h2 : k1 = p.fst
        · simp [hasKey, alookup, h2]
        · simpa [hasKey, alookup, h2] using ih h1

theorem mem_keysOf_upsert {α : Type} (l : List (String × α)) (k x : String) (v : α) :
    x ∈ keysOf (upsert l k v) → x ∈ keysOf l ∨ x = k := by
  intro hx
  by_cases h : x = k
  · exact Or.inr h
  · left
    have : hasKey (upsert l k v) x = true := (hasKey_iff_mem_keysOf _ _).mpr hx
    rw [hasKey_upsert] at this
    rcases this with h1 | h1
    · exact absurd h1 h
    · exact (hasKey_iff_mem_keysOf _ _).mp h1

theorem nodup_keysOf_upsert {α : Type} (l : List (String × α)) (k : String) (v : α)
    (h : (keysOf l).Nodup) : (keysOf (upsert l k v)).Nodup := by
  induction l with
  | nil => simp [upsert, keysOf]
  | cons p rest ih =>
      obtain ⟨k1, v1⟩ := p
      simp only [keysOf, List.map_cons, List.nodup_cons] at h
      by_cases h1 : k1 = k
      · subst h1
        simpa [upsert, keysOf, List.nodup_cons] using h
      · have hrest := ih h.2
        simp only [upsert, h1, if_false, keysOf, List.map_cons, List.nodup_cons]
        refine ⟨fun hc => ?_, hrest⟩
        rcases mem_keysOf_upsert rest k k1 v hc with hm | hm
        · exact h.1 hm
        · exact h1 hm

theorem mem_of_alookup {α : Type} {l : List (String × α)} {k : String} {v : α}
    (h : alookup l k = some v) : (k, v) ∈ l := by
  induction l with
  | nil => simp [alookup] at h
  | cons p rest ih =>
      obtain ⟨k1, v1⟩ := p
      by_cases h1 : k1 = k
      · subst h1
        simp [alookup] at h
        subst h
        exact List.mem_cons_self _ _
      · simp [alookup, h1] at h
        exact List.mem_cons_of_mem _ (ih h)

theorem step_go_unit_ok (env : Executors) (si snap : List (String × Value))
    (execs execs2 : List (String × Executable)) (results : List (String × Value))
    (gen g : Nat) (err : Option String) (eid : String) (rest : List String) (v : Value)
    (h : _execute_single env si execs snap eid = ⟨execs2, g, Except.ok v⟩) :
    step_go env si snap execs results gen err (eid :: rest) =
      step_go env si snap execs2 (upsert results eid v) (gen + g) err rest := by
  simp only [step_go, h]

theorem step_go_unit_error (env : Executors) (si snap : List (String × Value))
    (execs execs2 : List (String × Executable)) (results : List (String × Value))
    (gen g : Nat) (err : Option String) (eid : String) (rest : List String) (m : String)
    (h : _execute_single env si execs snap eid = ⟨execs2, g, Except.error m⟩) :
    step_go env si snap execs results gen err (eid :: rest) =
      step_go env si snap execs2 results (gen + g)
        (some (err.getD ("Error executing " ++ eid ++ ": " ++ m))) rest := by
  simp only [step_go, h]

theorem step_go_err_persists (env : Executors) (si snap : List (String × Value)) :
    ∀ (ids : List String) (execs : List (String × Executable))
      (results : List (String × Value)) (gen : Nat) (m : String),
      (step_go env si snap execs results gen (some m) ids).2 = some m := by
  intro ids
  induction ids with
  | nil => intro execs results gen m; simp [step_go]
  | cons eid rest ih =>
      intro execs results gen m
      rcases h : _execute_single env si execs snap eid with ⟨execs2, g, out⟩
      cases out with
      | ok v => rw [step_go_unit_ok env si snap execs execs2 results gen g _ eid rest v h]; exact ih _ _ _ _
      | error me =>
          rw [step_go_unit_error env si snap execs execs2 results gen g _ eid rest me h]
          exact ih _ _ _ _

theorem det_not_llm {e : Executable} (h : e.isDetNode = true) : e.isLLM = false := by
  cases e <;> simp [Executable.isDetNode, Executable.isLLM] at h ⊢

theorem check_true_iff (execs : List (String × Executable))
    (results : List (String × Value)) :
    _check_if_inputs_deterministic execs results = true ↔
      ∀ p ∈ results, ∀ e, alookup execs p.fst = some e → e.isLLM = false := by
  unfold _check_if_inputs_deterministic
  rw [List.all_eq_true]
  constructor
  · intro h p hp e he
    have hh := h p hp
    rw [he] at hh
    simpa using hh
  · intro h p hp
    cases hc : alookup execs p.fst with
    | none => simp [hc]
    | some e => simpa [hc] using h p hp e hc

theorem check_false_upsert (execs : List (String × Executable))
    (results : List (String × Value)) (k : String) (v : Value)
    (h : _check_if_inputs_deterministic execs results = false) :
    _check_if_inputs_deterministic execs (upsert results k v) = false := by
  by_contra hc
  rw [Bool.not_eq_false, check_true_iff] at hc
  rw [← Bool.not_eq_true, check_true_iff] at h
  apply h
  intro p hp e he
  have hk : hasKey (upsert results k v) p.fst = true :=
    (hasKey_upsert results k p.fst v).mpr (Or.inr (hasKey_of_mem hp))
  rw [hasKey] at hk
  rcases Option.isSome_iff_exists.mp hk with ⟨w, hw⟩
  exact hc (p.fst, w) (mem_of_alookup hw) e he

theorem check_det_of_keys (execs : List (String × Executable))
    (R : List (String × Value)) (ids : List String)
    (hkeys : ∀ k, hasKey R k = true → k ∈ ids)
    (hdet : ∀ eid ∈ ids, ∃ e, alookup execs eid = some e ∧ e.isDetNode = true) :
    _check_if_inputs_deterministic execs R = true := by
  rw [check_true_iff]
  intro p hp e he
  have hmem : p.fst ∈ ids := hkeys p.fst (hasKey_of_mem hp)
  rcases hdet p.fst hmem with ⟨e0, he0, hd⟩
  rw [he0] at he
  cases he
  exact det_not_llm hd

/-- C2: the determinism predicate is true exactly when no completed id in
the result mapping refers to a Generative (LLM) executable, and it is
monotone under the engine's only write to the result mapping (recording a
result is an insertion-ordered dict assignment): once false it stays false
for the remainder of the run. -/
theorem C2_determinism_predicate (execs : List (String × Executable))
    (results : List (String × Value)) :
    (_check_if_inputs_deterministic execs results = true ↔
      ∀ p ∈ results, ∀ e, alookup execs p.fst = some e → e.isLLM = false)
    ∧ (∀ k v, _check_if_inputs_deterministic execs results = false →
        _check_if_inputs_deterministic execs (upsert results k v) = false) :=
  ⟨check_true_iff execs results, fun k v h => check_false_upsert execs results k v h⟩

/-- Witness for C2 at a concrete state: one completed LLM id makes the
predicate false, and it stays false after a further result is recorded. -/
theorem C2_determinism_predicate_witness :
    _check_if_inputs_deterministic
      [("g", Executable.llm "g" "gen" none "sys" "tmpl")]
      (upsert [("g", Value.null)] "q" Value.null) = false :=
  (C2_determinism_predicate [("g", Executable.llm "g" "gen" none "sys" "tmpl")]
    [("g", Value.null)]).2 "q" Value.null (by decide)

/-- Concrete collaborator functions used to instantiate the theorems on
closed inputs: queries evaluate to a tagged string, the query text "boom"
fails, scripts and prompts echo their inputs, the generator returns a
fixed non-empty script per name. -/
def envT : Executors where
  execute_sql := fun q _ =>
    if q = "boom" then Except.error "SQL execution error: boom"
    else Except.ok (Value.str ("sql:" ++ q))
  execute_python := fun s _ => Except.ok (Value.str ("py:" ++ s))
  chat_completion := fun _ u => Except.ok ("chat:" ++ u)
  generate_python_script := fun n _ _ => Except.ok ("script for " ++ n)
  execute_output := fun _ _ => Except.ok (Value.str "rendered")

/-- Concrete blueprint executables used by witnesses: two query nodes. -/
def execsT : List (String × Executable) :=
  [("A", Executable.sql "A" "price data" none "qa"),
   ("B", Executable.sql "B" "sentiment data" none "qb")]

/-- A fresh simulation as the create route builds it: no inputs, no
results, empty chat history, pending. -/
def simT : Simulation :=
  ⟨"sim", "bp", [], [], ExecutionStatus.pending, [], none, 0, 0⟩

/-- A blueprint over the two query nodes, one per step. -/
def bpT : Blueprint :=
  ⟨"bp", "two queries", none, execsT, [⟨["A"]⟩, ⟨["B"]⟩]⟩

/-- C4: the input of a unit is the simulation's explicit recorded input
when present; otherwise None while nothing has completed; otherwise a copy
of the whole current result mapping. In particular, after a step with
units A and B, a unit C of the next step with no explicit input receives
exactly the mapping with A's and B's results. -/
theorem C4_input_policy :
    (∀ (si R : List (String × Value)) (eid : String) (v : Value),
        alookup si eid = some v → _gather_inputs_from_previous_steps si R eid = v)
    ∧ (∀ (si : List (String × Value)) (eid : String),
        alookup si eid = none → _gather_inputs_from_previous_steps si [] eid = Value.null)
    ∧ (∀ (si R : List (String × Value)) (eid : String),
        alookup si eid = none → R ≠ [] →
          _gather_inputs_from_previous_steps si R eid = Value.dict R)
    ∧ (∀ (env : Executors) (si : List (String × Value))
        (execs : List (String × Executable)) (a b c : String) (st1 : EngineState),
        a ≠ b → alookup si c = none →
        _execute_step env si ⟨execs, [], 0⟩ [a, b] = (st1, none) →
        ∃ ra rb, st1.results = [(a, ra), (b, rb)] ∧
          _gather_inputs_from_previous_steps si st1.results c =
            Value.dict [(a, ra), (b, rb)]) := by
  refine ⟨?_, ?_, ?_, ?_⟩
  · intro si R eid v h
    simp [_gather_inputs_from_previous_steps, h]
  · intro si eid h
    simp [_gather_inputs_from_previous_steps, h]
  · intro si R eid h hR
    cases R with
    | nil => exact absurd rfl hR
    | cons p rest => simp [_gather_inputs_from_previous_steps, h]
  · intro env si execs a b c st1 hab hc hstep
    unfold _execute_step at hstep
    rcases h1 : _execute_single env si execs [] a with ⟨e2, g1, out1⟩
    cases out1 with
    | error m =>
        rw [step_go_unit_error env si [] execs e2 [] 0 g1 none a [b] m h1] at hstep
        simp only [Option.getD_none] at hstep
        have hp := step_go_err_persists env si [] [b] e2 [] (0 + g1)
          ("Error executing " ++ a ++ ": " ++ m)
        rw [hstep] at hp
        simp at hp
    | ok va =>
        rw [step_go_unit_ok env si [] execs e2 [] 0 g1 none a [b] va h1] at hstep
        rcases h2 : _execute_single env si e2 [] b with ⟨e3, g2, out2⟩
        cases out2 with
        | error m =>
            rw [step_go_unit_error env si [] e2 e3 (upsert [] a va) (0 + g1) g2 none b [] m h2]
              at hstep
            simp only [Option.getD_none] at hstep
            have hp := step_go_err_persists env si [] [] e3 (upsert [] a va) (0 + g1 + g2)
              ("Error executing " ++ b ++ ": " ++ m)
            rw [hstep] at hp
            simp at hp
        | ok vb =>
            rw [step_go_unit_ok env si [] e2 e3 (upsert [] a va) (0 + g1) g2 none b [] vb h2]
              at hstep
            simp only [step_go] at hstep
            have hres : st1.results = upsert (upsert [] a va) b vb :=
              (congrArg (fun p => (Prod.fst p).results) hstep).symm
            have hup : upsert (upsert [] a va) b vb = [(a, va), (b, vb)] := by
              simp [upsert, hab]
            refine ⟨va, vb, by rw [hres, hup], ?_⟩
            rw [hres, hup]
            simp [_gather_inputs_from_previous_steps, hc]

/-- Witness for C4 on a two-query step followed by a dependent unit. -/
theorem C4_input_policy_witness :
    ∃ ra rb,
      (EngineState.mk execsT [("A", Value.str "sql:qa"), ("B", Value.str "sql:qb")] 0).results
        = [("A", ra), ("B", rb)] ∧
      _gather_inputs_from_previous_steps []
        (EngineState.mk execsT [("A", Value.str "sql:qa"), ("B", Value.str "sql:qb")] 0).results
        "C" = Value.dict [("A", ra), ("B", rb)] :=
  C4_input_policy.2.2.2 envT [] execsT "A" "B" "C"
    ⟨execsT, [("A", Value.str "sql:qa"), ("B", Value.str "sql:qb")], 0⟩
    (by decide) rfl rfl

/-- C8: the Generative executor substitutes every occurrence of the
placeholder in the user-prompt template with the string rendering of the
input (JSON text for dicts and lists, str() otherwise) before delegating
to the chat collaborator, and passes the template unmodified when no input
(None) is given. -/
theorem C8_llm_placeholder (env : Executors) (sp tmpl : String) :
    (∀ v : Value, v ≠ Value.null →
        execute_llm env sp tmpl v =
          match env.chat_completion sp (tmpl.replace "\x7binput\x7d" (render_input v)) with
          | .ok t => .ok t
          | .error m => .error ("LLM execution error: " ++ m))
    ∧ (execute_llm env sp tmpl Value.null =
        match env.chat_completion sp tmpl with
        | .ok t => .ok t
        | .error m => .error ("LLM execution error: " ++ m))
    ∧ (∀ es, render_input (Value.dict es) = json_dumps (Value.dict es))
    ∧ (∀ xs, render_input (Value.arr xs) = json_dumps (Value.arr xs))
    ∧ (∀ s, render_input (Value.str s) = s)
    ∧ (∀ n : Int, render_input (Value.int n) = toString n) := by
  refine ⟨?_, rfl, fun es => rfl, fun xs => rfl, fun s => rfl, fun n => rfl⟩
  intro v hv
  cases v with
  | null => exact absurd rfl hv
  | bool b => rfl
  | str s => rfl
  | int n => rfl
  | dict es => rfl
  | arr xs => rfl

/-- Witness for C8: a template with two placeholder occurrences and an
integer input. -/
theorem C8_llm_placeholder_witness :
    execute_llm envT "sys" "x=\x7binput\x7d and y=\x7binput\x7d" (Value.int 5) =
      match envT.chat_completion "sys"
          (String.replace "x=\x7binput\x7d and y=\x7binput\x7d" "\x7binput\x7d"
            (render_input (Value.int 5))) with
      | .ok t => .ok t
      | .error m => .error ("LLM execution error: " ++ m) :=
  (C8_llm_placeholder envT "sys" "x=\x7binput\x7d and y=\x7binput\x7d").1
    (Value.int 5) (fun h => Value.noConfusion h)

/-- C9: dispatch is a closed match on the four executable variants — Query
and Script delegate to their executors, Generative delegates through the
prompt resolution, and any runtime object of another type is answered with
a fatal unknown-executable-type error (an error outcome, never a silent
skip and never a state change). -/
theorem C9_dispatch (env : Executors) (execs : List (String × Executable))
    (R : List (String × Value)) (exec_id : String) (input : Value) :
    (∀ i n d q, _execute_executable env execs R exec_id (Executable.sql i n d q) input =
        ⟨execs, 0, env.execute_sql q input⟩)
    ∧ (∀ i n d s, _execute_executable env execs R exec_id (Executable.python i n d s) input =
        ⟨execs, 0, env.execute_python s input⟩)
    ∧ (∀ i n d sp t, _execute_executable env execs R exec_id (Executable.llm i n d sp t) input =
        ⟨execs, 0, (execute_llm env sp t input).map Value.str⟩)
    ∧ (∀ i ty, _execute_executable env execs R exec_id (Executable.raw i ty) input =
        ⟨execs, 0, Except.error ("Unknown executable type: " ++ ty)⟩) :=
  ⟨fun _ _ _ _ => rfl, fun _ _ _ _ => rfl, fun _ _ _ _ _ => rfl, fun _ _ => rfl⟩

/-- C10: executing a simulation, completing or failing, leaves its inputs
mapping and chat history (and its identity and creation time) exactly as
they were; only status, results, error and updated_at are written. -/
theorem C10_execute_frame (env : Executors) (bp : Blueprint) (sim : Simulation) (now : Nat) :
    ((execute_simulation env bp sim now).1.inputs = sim.inputs)
    ∧ ((execute_simulation env bp sim now).1.chat_history = sim.chat_history)
    ∧ ((execute_simulation env bp sim now).1.id = sim.id)
    ∧ ((execute_simulation env bp sim now).1.blueprint_id = sim.blueprint_id)
    ∧ ((execute_simulation env bp sim now).1.created_at = sim.created_at) := by
  unfold execute_simulation
  rcases h : engine_execute env bp.executables (bp.steps.map ExecutionStep.executable_ids)
      sim.inputs with ⟨st, e⟩
  cases e <;> simp [h]

theorem find_unknown_sound (known : List String) :
    ∀ (steps : List ExecutionStep) (bad : String),
      find_unknown_step_id known steps = some bad →
      bad ∉ known ∧ ∃ s ∈ steps, bad ∈ s.executable_ids := by
  intro steps
  induction steps with
  | nil => intro bad h; simp [find_unknown_step_id] at h
  | cons s rest ih =>
      intro bad h
      unfold find_unknown_step_id at h
      cases hf : s.executable_ids.find? (fun eid => !known.contains eid) with
      | some b =>
          rw [hf] at h
          cases h
          have hp := List.find?_some hf
          have hmem := List.mem_of_find?_eq_some hf
          refine ⟨?_, s, List.mem_cons_self _ _, hmem⟩
          intro hin
          rw [Bool.not_eq_true', ← Bool.not_eq_true] at hp
          exact hp (List.elem_iff.mpr hin)
      | none =>
          rw [hf] at h
          rcases ih bad h with ⟨h1, s2, hs2, h3⟩
          exact ⟨h1, s2, List.mem_cons_of_mem _ hs2, h3⟩

theorem find_unknown_complete (known : List String) :
    ∀ (steps : List ExecutionStep),
      (∃ s ∈ steps, ∃ bad ∈ s.executable_ids, bad ∉ known) →
      ∃ b, find_unknown_step_id known steps = some b := by
  intro steps
  induction steps with
  | nil => intro h; simp at h
  | cons s rest ih =>
      intro h
      unfold find_unknown_step_id
      cases hf : s.executable_ids.find? (fun eid => !known.contains eid) with
      | some b => exact ⟨b, rfl⟩
      | none =>
          apply ih
          rcases h with ⟨s2, hs2, bad, hbad, hnk⟩
          rcases List.mem_cons.mp hs2 with h1 | h1
          · subst h1
            have hne := List.find?_eq_none.mp hf bad hbad
            have hcont : known.contains bad = true := by simpa using hne
            exact absurd (List.elem_iff.mp hcont) hnk
          · exact ⟨s2, h1, bad, hbad, hnk⟩

theorem fetch_executables_ok (store_execs : List (String × Executable)) :
    ∀ (ids : List String),
      (∀ eid ∈ ids, hasKey store_execs eid = true) →
      ∃ es, fetch_executables store_execs ids = .ok es := by
  intro ids
  induction ids with
  | nil => intro _; exact ⟨[], rfl⟩
  | cons eid rest ih =>
      intro h
      have h1 : hasKey store_execs eid = true := h eid (List.mem_cons_self _ _)
      rw [hasKey] at h1
      rcases Option.isSome_iff_exists.mp h1 with ⟨e, he⟩
      rcases ih (fun x hx => h x (List.mem_cons_of_mem _ hx)) with ⟨es, hes⟩
      refine ⟨upsert es eid e, ?_⟩
      unfold fetch_executables
      rw [he, hes]

/-- C7: a blueprint-create or step-update request in which some step names
an executable id that is not among the blueprint's executables is rejected
with a validation error that identifies such an id, and the store is left
unchanged (neither a new blueprint nor modified steps are saved). For the
create route the requested executables are assumed to resolve in the
store, since that lookup runs first and its failure is the distinct
executable-not-found rejection. -/
theorem C7_step_validation (store : Storage) (new_id : String)
    (req : CreateBlueprintRequest) (bpid : String) (steps2 : List ExecutionStep) :
    ((∃ s ∈ req.steps, ∃ bad ∈ s.executable_ids, bad ∉ req.executable_ids) →
      (∀ eid ∈ req.executable_ids, hasKey store.executables eid = true) →
      (create_blueprint store new_id req).1 = store ∧
      ∃ bad, bad ∉ req.executable_ids ∧ (∃ s ∈ req.steps, bad ∈ s.executable_ids) ∧
        (create_blueprint store new_id req).2 =
          Except.error ("Step references unknown executable: " ++ bad))
    ∧ (∀ bp, alookup store.blueprints bpid = some bp →
        (∃ s ∈ steps2, ∃ bad ∈ s.executable_ids, hasKey bp.executables bad = false) →
        (update_steps store bpid steps2).1 = store ∧
        ∃ bad, hasKey bp.executables bad = false ∧ (∃ s ∈ steps2, bad ∈ s.executable_ids) ∧
          (update_steps store bpid steps2).2 =
            Except.error ("Step references unknown executable: " ++ bad)) := by
  constructor
  · intro hbad hall
    rcases fetch_executables_ok store.executables req.executable_ids hall with ⟨es, hes⟩
    rcases find_unknown_complete req.executable_ids req.steps hbad with ⟨b, hb⟩
    rcases find_unknown_sound req.executable_ids req.steps b hb with ⟨hnk, hsb⟩
    unfold create_blueprint
    rw [hes, hb]
    exact ⟨rfl, b, hnk, hsb, rfl⟩
  · intro bp hbp hbad
    have hbad2 : ∃ s ∈ steps2, ∃ bad ∈ s.executable_ids, bad ∉ keysOf bp.executables := by
      rcases hbad with ⟨s, hs, bad, hbadmem, hk⟩
      refine ⟨s, hs, bad, hbadmem, fun hmem => ?_⟩
      rw [← hasKey_iff_mem_keysOf] at hmem
      rw [hk] at hmem
      cases hmem
    rcases find_unknown_complete (keysOf bp.executables) steps2 hbad2 with ⟨b, hb⟩
    rcases find_unknown_sound (keysOf bp.executables) steps2 b hb with ⟨hnk, hsb⟩
    have hred : update_steps store bpid steps2 =
        (store, Except.error ("Step references unknown executable: " ++ b)) := by
      unfold update_steps
      rw [hbp]
      simp only [hb]
    rw [hred]
    refine ⟨rfl, b, ?_, hsb, rfl⟩
    rw [← Bool.not_eq_true, hasKey_iff_mem_keysOf]
    exact hnk

/-- Witness for C7: a create request whose single step names the id "ghost"
that is not among the requested executables, against a store holding the
two query executables; and a step update naming "ghost" against the stored
blueprint that owns those executables. -/
theorem C7_step_validation_witness :
    ((create_blueprint ⟨execsT, []⟩ "bp1"
        ⟨"bp", none, ["A", "B"], [⟨["A", "ghost"]⟩]⟩).1 = ⟨execsT, []⟩ ∧
      ∃ bad, bad ∉ ["A", "B"] ∧
        (∃ s ∈ [ExecutionStep.mk ["A", "ghost"]], bad ∈ s.executable_ids) ∧
        (create_blueprint ⟨execsT, []⟩ "bp1"
            ⟨"bp", none, ["A", "B"], [⟨["A", "ghost"]⟩]⟩).2 =
          Except.error ("Step references unknown executable: " ++ bad))
    ∧ ((update_steps ⟨execsT, [("bp1", ⟨"bp1", "bp", none, execsT, []⟩)]⟩ "bp1"
          [⟨["ghost"]⟩]).1 = ⟨execsT, [("bp1", ⟨"bp1", "bp", none, execsT, []⟩)]⟩ ∧
        ∃ bad, hasKey (execsT) bad = false ∧
          (∃ s ∈ [ExecutionStep.mk ["ghost"]], bad ∈ s.executable_ids) ∧
          (update_steps ⟨execsT, [("bp1", ⟨"bp1", "bp", none, execsT, []⟩)]⟩ "bp1"
              [⟨["ghost"]⟩]).2 =
            Except.error ("Step references unknown executable: " ++ bad)) :=
  ⟨(C7_step_validation ⟨execsT, []⟩ "bp1" ⟨"bp", none, ["A", "B"], [⟨["A", "ghost"]⟩]⟩
      "bp1" [⟨["ghost"]⟩]).1
    ⟨⟨["A", "ghost"]⟩, by simp, "ghost", by simp, by decide⟩
    (by decide),
   (C7_step_validation ⟨execsT, [("bp1", ⟨"bp1", "bp", none, execsT, []⟩)]⟩ "bp1"
      ⟨"bp", none, ["A", "B"], [⟨["A", "ghost"]⟩]⟩ "bp1" [⟨["ghost"]⟩]).2
    ⟨"bp1", "bp", none, execsT, []⟩ rfl
    ⟨⟨["ghost"]⟩, by simp, "ghost", by simp, by decide⟩⟩

/-- C5 (amended): when unit B of a step fails while its sibling A
succeeds, the run stops (no later step contributes anything), the
Simulation ends Failed with an error text containing B's id, and A's
output survives in the engine's accumulated result mapping — but the
Simulation's own results field is left unchanged, because the failure
branch of the execute route never writes results. -/
theorem C5_partial_failure (env : Executors) (bp : Blueprint) (sim : Simulation)
    (now : Nat) (a b : String) (rest : List ExecutionStep) (va : Value) (m : String)
    (e2 e3 : List (String × Executable)) (g1 g2 : Nat)
    (hab : a ≠ b)
    (hsteps : bp.steps = ⟨[a, b]⟩ :: rest)
    (ha : _execute_single env sim.inputs bp.executables [] a = ⟨e2, g1, Except.ok va⟩)
    (hb : _execute_single env sim.inputs e2 [] b = ⟨e3, g2, Except.error m⟩) :
    (execute_simulation env bp sim now).1.status = ExecutionStatus.failed
    ∧ (execute_simulation env bp sim now).1.error =
        some ("Execution engine error: " ++ ("Error executing " ++ b ++ ": " ++ m))
    ∧ (execute_simulation env bp sim now).1.results = sim.results
    ∧ (execute_simulation env bp sim now).2.1.results = [(a, va)]
    ∧ alookup (execute_simulation env bp sim now).2.1.results a = some va
    ∧ alookup (execute_simulation env bp sim now).2.1.results b = none := by
  have hstep : _execute_step env sim.inputs ⟨bp.executables, [], 0⟩ [a, b] =
      (⟨e3, [(a, va)], 0 + g1 + g2⟩, some ("Error executing " ++ b ++ ": " ++ m)) := by
    unfold _execute_step
    rw [step_go_unit_ok env sim.inputs [] bp.executables e2 [] 0 g1 none a [b] va ha]
    rw [step_go_unit_error env sim.inputs [] e2 e3 (upsert [] a va) (0 + g1) g2 none b [] m hb]
    simp only [Option.getD_none, step_go, upsert]
  have hrun : engine_execute env bp.executables (bp.steps.map ExecutionStep.executable_ids)
      sim.inputs =
      (⟨e3, [(a, va)], 0 + g1 + g2⟩,
        some ("Execution engine error: " ++ ("Error executing " ++ b ++ ": " ++ m))) := by
    rw [hsteps]
    simp only [List.map_cons]
    unfold engine_execute engine_steps
    simp only [hstep]
  unfold execute_simulation
  simp only [hrun]
  have hba : ¬a = b := hab
  simp [alookup, hba]

/-- A blueprint whose single step holds one succeeding query unit A and
one failing query unit B (the query text "boom" fails under envT). -/
def bpFail : Blueprint :=
  ⟨"bp", "partial failure", none,
    [("A", Executable.sql "A" "A" none "qa"), ("B", Executable.sql "B" "B" none "boom")],
    [⟨["A", "B"]⟩]⟩

/-- Counterexample to C5 as stated: on this run B fails while A succeeds,
the Simulation ends Failed with an error naming B — yet A's output is NOT
present in the result mapping visible on the Simulation (its results field
is untouched by the failure branch); the partial result only survives in
the engine's internal mapping. -/
theorem C5_partial_failure_counterexample :
    (execute_simulation envT bpFail simT 1).1.status = ExecutionStatus.failed
    ∧ (execute_simulation envT bpFail simT 1).1.error =
        some "Execution engine error: Error executing B: SQL execution error: boom"
    ∧ (execute_simulation envT bpFail simT 1).1.results = []
    ∧ alookup (execute_simulation envT bpFail simT 1).1.results "A" = none
    ∧ alookup (execute_simulation envT bpFail simT 1).2.1.results "A" =
        some (Value.str "sql:qa") :=
  ⟨rfl, rfl, rfl, rfl, rfl⟩

/-- Witness for the amended C5 on the concrete failing blueprint. -/
theorem C5_partial_failure_witness :
    (execute_simulation envT bpFail simT 1).1.status = ExecutionStatus.failed
    ∧ (execute_simulation envT bpFail simT 1).1.error =
        some ("Execution engine error: " ++
          ("Error executing " ++ "B" ++ ": " ++ "SQL execution error: boom"))
    ∧ (execute_simulation envT bpFail simT 1).1.results = simT.results
    ∧ (execute_simulation envT bpFail simT 1).2.1.results = [("A", Value.str "sql:qa")]
    ∧ alookup (execute_simulation envT bpFail simT 1).2.1.results "A" =
        some (Value.str "sql:qa")
    ∧ alookup (execute_simulation envT bpFail simT 1).2.1.results "B" = none :=
  C5_partial_failure envT bpFail simT 1 "A" "B" [] (Value.str "sql:qa")
    "SQL execution error: boom" bpFail.executables bpFail.executables 0 0
    (by decide) rfl rfl rfl

theorem step_go_keys (env : Executors) (si snap : List (String × Value)) :
    ∀ (ids : List String) (execs : List (String × Executable))
      (results : List (String × Value)) (gen : Nat) (err : Option String),
      (∀ k, hasKey results k = true →
          hasKey (step_go env si snap execs results gen err ids).1.results k = true)
      ∧ (∀ k, hasKey (step_go env si snap execs results gen err ids).1.results k = true →
          hasKey results k = true ∨ k ∈ ids)
      ∧ ((step_go env si snap execs results gen err ids).2 = none →
          err = none ∧
            ∀ k ∈ ids, hasKey (step_go env si snap execs results gen err ids).1.results k = true)
      ∧ ((keysOf results).Nodup →
          (keysOf (step_go env si snap execs results gen err ids).1.results).Nodup) := by
  intro ids
  induction ids with
  | nil =>
      intro execs results gen err
      simp only [step_go]
      exact ⟨fun _ h => h, fun _ h => Or.inl h,
        fun he => ⟨he, fun k hk => absurd hk (List.not_mem_nil k)⟩, fun h => h⟩
  | cons eid rest ih =>
      intro execs results gen err
      rcases h : _execute_single env si execs snap eid with ⟨e2, g, out⟩
      cases out with
      | ok v =>
          rw [step_go_unit_ok env si snap execs e2 results gen g err eid rest v h]
          rcases ih e2 (upsert results eid v) (gen + g) err with ⟨ih1, ih2, ih3, ih4⟩
          refine ⟨?_, ?_, ?_, ?_⟩
          · intro k hk
            exact ih1 k ((hasKey_upsert results eid k v).mpr (Or.inr hk))
          · intro k hk
            rcases ih2 k hk with h1 | h1
            · rcases (hasKey_upsert results eid k v).mp h1 with h2 | h2
              · exact Or.inr (h2 ▸ List.mem_cons_self eid rest)
              · exact Or.inl h2
            · exact Or.inr (List.mem_cons_of_mem _ h1)
          · intro he
            rcases ih3 he with ⟨he1, he2⟩
            refine ⟨he1, fun k hk => ?_⟩
            rcases List.mem_cons.mp hk with h1 | h1
            · subst h1
              exact ih1 k ((hasKey_upsert results k k v).mpr (Or.inl rfl))
            · exact he2 k h1
          · intro hn
            exact ih4 (nodup_keysOf_upsert results eid v hn)
      | error m =>
          rw [step_go_unit_error env si snap execs e2 results gen g err eid rest m h]
          rcases ih e2 results (gen + g) (some (err.getD ("Error executing " ++ eid ++ ": " ++ m)))
            with ⟨ih1, ih2, ih3, ih4⟩
          refine ⟨ih1, ?_, ?_, ih4⟩
          · intro k hk
            rcases ih2 k hk with h1 | h1
            · exact Or.inl h1
            · exact Or.inr (List.mem_cons_of_mem _ h1)
          · intro he
            have hp := step_go_err_persists env si snap rest e2 results (gen + g)
              (err.getD ("Error executing " ++ eid ++ ": " ++ m))
            rw [he] at hp
            cases hp

theorem engine_steps_success_keys (env : Executors) (si : List (String × Value)) :
    ∀ (steps : List (List String)) (st st2 : EngineState),
      engine_steps env si st steps = (st2, none) →
      (∀ k, hasKey st2.results k = true ↔
          (hasKey st.results k = true ∨ k ∈ steps.flatten))
      ∧ ((keysOf st.results).Nodup → (keysOf st2.results).Nodup) := by
  intro steps
  induction steps with
  | nil =>
      intro st st2 h
      simp only [engine_steps] at h
      cases h
      exact ⟨fun k => by simp, fun h => h⟩
  | cons ids rest ih =>
      intro st st2 h
      unfold engine_steps at h
      rcases hs : _execute_step env si st ids with ⟨st1, e1⟩
      cases e1 with
      | some m => simp only [hs] at h; simp at h
      | none =>
          simp only [hs] at h
          rcases ih st1 st2 h with ⟨ih1, ih2⟩
          rcases step_go_keys env si st.results ids st.execs st.results st.gen_calls none
            with ⟨s1, s2, s3, s4⟩
          have hfst : (step_go env si st.results st.execs st.results st.gen_calls none ids).1
              = st1 := congrArg Prod.fst hs
          have hsnd : (step_go env si st.results st.execs st.results st.gen_calls none ids).2
              = none := congrArg Prod.snd hs
          rw [hfst] at s1 s2 s4
          rw [hfst, hsnd] at s3
          refine ⟨?_, fun hn => ih2 (s4 hn)⟩
          intro k
          have hiff : k ∈ (ids :: rest).flatten ↔ k ∈ ids ∨ k ∈ rest.flatten := by
            rw [List.flatten_cons]; exact List.mem_append
          rw [ih1 k, hiff]
          constructor
          · intro hk
            rcases hk with h1 | h1
            · rcases s2 k h1 with h2 | h2
              · exact Or.inl h2
              · exact Or.inr (Or.inl h2)
            · exact Or.inr (Or.inr h1)
          · intro hk
            rcases hk with h1 | h1 | h1
            · exact Or.inl (s1 k h1)
            · exact Or.inl ((s3 rfl).2 k h1)
            · exact Or.inr h1

/-- C6: a run on which every unit succeeds produces a result mapping with
exactly one entry per executed id — an id has an entry exactly when it
appears in some step of the blueprint, and the keys are duplicate-free —
and the route then stores that mapping on the Simulation and marks it
Completed. -/
theorem C6_success_results (env : Executors) (bp : Blueprint) (sim : Simulation)
    (now : Nat) (st : EngineState)
    (h : engine_execute env bp.executables (bp.steps.map ExecutionStep.executable_ids)
        sim.inputs = (st, none)) :
    (∀ k, hasKey st.results k = true ↔
        k ∈ (bp.steps.map ExecutionStep.executable_ids).flatten)
    ∧ (keysOf st.results).Nodup
    ∧ (execute_simulation env bp sim now).1.status = ExecutionStatus.completed
    ∧ (execute_simulation env bp sim now).1.results = st.results := by
  have hsteps : engine_steps env sim.inputs ⟨bp.executables, [], 0⟩
      (bp.steps.map ExecutionStep.executable_ids) = (st, none) := by
    unfold engine_execute at h
    rcases he : engine_steps env sim.inputs ⟨bp.executables, [], 0⟩
        (bp.steps.map ExecutionStep.executable_ids) with ⟨st0, e0⟩
    cases e0 with
    | none => simp only [he] at h; cases h; rfl
    | some m => simp only [he] at h; cases h
  rcases engine_steps_success_keys env sim.inputs
      (bp.steps.map ExecutionStep.executable_ids) ⟨bp.executables, [], 0⟩ st hsteps
    with ⟨h1, h2⟩
  refine ⟨?_, ?_, ?_, ?_⟩
  · intro k
    rw [h1 k]
    simp [hasKey, alookup]
  · exact h2 (by simp [keysOf])
  · unfold execute_simulation
    simp only [h]
  · unfold execute_simulation
    simp only [h]

/-- Witness for C6 on the concrete two-step blueprint of query nodes. -/
theorem C6_success_results_witness :
    (∀ k, hasKey (EngineState.mk execsT
          [("A", Value.str "sql:qa"), ("B", Value.str "sql:qb")] 0).results k = true ↔
        k ∈ (bpT.steps.map ExecutionStep.executable_ids).flatten)
    ∧ (keysOf (EngineState.mk execsT
          [("A", Value.str "sql:qa"), ("B", Value.str "sql:qb")] 0).results).Nodup
    ∧ (execute_simulation envT bpT simT 1).1.status = ExecutionStatus.completed
    ∧ (execute_simulation envT bpT simT 1).1.results =
        (EngineState.mk execsT
          [("A", Value.str "sql:qa"), ("B", Value.str "sql:qb")] 0).results :=
  C6_success_results envT bpT simT 1
    ⟨execsT, [("A", Value.str "sql:qa"), ("B", Value.str "sql:qb")], 0⟩ rfl

/-- C3: a freshly generated render script is persisted onto the node's
cached_script (the blueprint/store entry of the node) exactly when the
determinism predicate holds at that moment: a non-deterministic run leaves
the executables mapping unchanged — the script is used once and discarded
— and still pays one generator invocation even when a cached script
exists, while a deterministic run that had no (truthy) cache persists the
generated script under the engine's key for the node. -/
theorem C3_cache_persistence (env : Executors) (execs : List (String × Executable))
    (R : List (String × Value)) (exec_id oid oname : String) (odesc : Option String)
    (ct : ChartType) (vdesc : String) (cached : Option String) (input : Value) (s : String)
    (hgen : env.generate_python_script (oname ++ " Script")
        ("Create " ++ chart_value ct ++ " visualization: " ++ vdesc) (py_str input) =
        Except.ok s) :
    (_check_if_inputs_deterministic execs R = false →
        (_execute_executable env execs R exec_id
            (Executable.output oid oname odesc ct vdesc cached) input).execs = execs
        ∧ (_execute_executable env execs R exec_id
            (Executable.output oid oname odesc ct vdesc cached) input).gen_calls = 1)
    ∧ (_check_if_inputs_deterministic execs R = true → truthy_cached cached = false →
        (_execute_executable env execs R exec_id
            (Executable.output oid oname odesc ct vdesc cached) input).execs =
          upsert execs exec_id (Executable.output oid oname odesc ct vdesc (some s))
        ∧ (_execute_executable env execs R exec_id
            (Executable.output oid oname odesc ct vdesc cached) input).gen_calls = 1) := by
  constructor
  · intro hdet
    cases cached with
    | none =>
        simp only [_execute_executable, hdet, hgen]
        cases ho : env.execute_output s input <;> simp [ho]
    | some s0 =>
        simp only [_execute_executable, hdet, hgen, Bool.and_false, if_false]
        cases ho : env.execute_output s input <;> simp [ho]
  · intro hdet htr
    cases cached with
    | none =>
        simp only [_execute_executable, hdet, hgen]
        cases ho : env.execute_output s input <;> simp [ho]
    | some s0 =>
        have htr2 : (s0 != "") = false := by simpa [truthy_cached] using htr
        simp only [_execute_executable, hdet, hgen, htr2, Bool.false_and, if_false]
        cases ho : env.execute_output s input <;> simp [ho]

/-- Executables of a blueprint holding one Generative node g and one
Render node r that already carries a cached script. -/
def execsL : List (String × Executable) :=
  [("g", Executable.llm "g" "gen" none "sys" "analyze \x7binput\x7d"),
   ("r", Executable.output "r" "viz" none ChartType.table "d" (some "old"))]

/-- A result mapping in which the Generative node g has completed. -/
def RL : List (String × Value) :=
  [("g", Value.str "x")]

/-- Witness for C3: after the LLM node completed, the render node's entry
is untouched and the generator is still invoked once although a cached
script exists; on a deterministic run with no cache the generated script
is persisted under the node's key. -/
theorem C3_cache_persistence_witness :
    ((_execute_executable envT execsL RL "r"
        (Executable.output "r" "viz" none ChartType.table "d" (some "old")) Value.null).execs
        = execsL
      ∧ (_execute_executable envT execsL RL "r"
        (Executable.output "r" "viz" none ChartType.table "d" (some "old")) Value.null).gen_calls
        = 1)
    ∧ ((_execute_executable envT execsT [] "r"
        (Executable.output "r" "viz" none ChartType.table "d" none) Value.null).execs
        = upsert execsT "r"
            (Executable.output "r" "viz" none ChartType.table "d" (some "script for viz Script"))
      ∧ (_execute_executable envT execsT [] "r"
        (Executable.output "r" "viz" none ChartType.table "d" none) Value.null).gen_calls
        = 1) :=
  ⟨(C3_cache_persistence envT execsL RL "r" "r" "viz" none ChartType.table "d"
      (some "old") Value.null "script for viz Script" rfl).1 (by decide),
   (C3_cache_persistence envT execsT [] "r" "r" "viz" none ChartType.table "d"
      none Value.null "script for viz Script" rfl).2 (by decide) rfl⟩

theorem det_single (env : Executors) (si snap : List (String × Value)) (eid : String)
    (e : Executable) (hd : e.isDetNode = true) :
    ∃ out : Except String Value, ∀ execs, alookup execs eid = some e →
      _execute_single env si execs snap eid = ⟨execs, 0, out⟩ := by
  cases e with
  | sql i n d q =>
      exact ⟨env.execute_sql q (_gather_inputs_from_previous_steps si snap eid),
        fun execs he => by simp [_execute_single, he, _execute_executable]⟩
  | python i n d sc =>
      exact ⟨env.execute_python sc (_gather_inputs_from_previous_steps si snap eid),
        fun execs he => by simp [_execute_single, he, _execute_executable]⟩
  | llm i n d sp t => simp [Executable.isDetNode] at hd
  | output i n d ct vd cs => simp [Executable.isDetNode] at hd
  | raw i t => simp [Executable.isDetNode] at hd

theorem step_go_det_two (env : Executors) (si snap : List (String × Value)) :
    ∀ (ids : List String) (execs1 execs2 : List (String × Executable)),
      (∀ eid ∈ ids, alookup execs1 eid = alookup execs2 eid) →
      (∀ eid ∈ ids, ∃ e, alookup execs1 eid = some e ∧ e.isDetNode = true) →
      ∀ (results : List (String × Value)) (gen : Nat) (err : Option String),
      ∃ R E,
        step_go env si snap execs1 results gen err ids = (⟨execs1, R, gen⟩, E)
        ∧ step_go env si snap execs2 results gen err ids = (⟨execs2, R, gen⟩, E)
        ∧ (∀ k, hasKey R k = true → hasKey results k = true ∨ k ∈ ids) := by
  intro ids
  induction ids with
  | nil =>
      intro execs1 execs2 _ _ results gen err
      exact ⟨results, err, rfl, rfl, fun k h => Or.inl h⟩
  | cons eid rest ih =>
      intro execs1 execs2 hagree hdet results gen err
      obtain ⟨e, he1, hde⟩ := hdet eid (List.mem_cons_self _ _)
      have he2 : alookup execs2 eid = some e := by
        rw [← hagree eid (List.mem_cons_self _ _)]; exact he1
      obtain ⟨out, hout⟩ := det_single env si snap eid e hde
      have h1 := hout execs1 he1
      have h2 := hout execs2 he2
      have hagree2 : ∀ x ∈ rest, alookup execs1 x = alookup execs2 x :=
        fun x hx => hagree x (List.mem_cons_of_mem _ hx)
      have hdet2 : ∀ x ∈ rest, ∃ e0, alookup execs1 x = some e0 ∧ e0.isDetNode = true :=
        fun x hx => hdet x (List.mem_cons_of_mem _ hx)
      cases out with
      | ok v =>
          rw [step_go_unit_ok env si snap execs1 execs1 results gen 0 err eid rest v h1]
          rw [step_go_unit_ok env si snap execs2 execs2 results gen 0 err eid rest v h2]
          rw [Nat.add_zero]
          obtain ⟨R, E, hh1, hh2, hk⟩ := ih execs1 execs2 hagree2 hdet2
            (upsert results eid v) gen err
          refine ⟨R, E, hh1, hh2, fun k hkk => ?_⟩
          rcases hk k hkk with hh | hh
          · rcases (hasKey_upsert results eid k v).mp hh with h3 | h3
            · exact Or.inr (h3 ▸ List.mem_cons_self eid rest)
            · exact Or.inl h3
          · exact Or.inr (List.mem_cons_of_mem _ hh)
      | error m =>
          rw [step_go_unit_error env si snap execs1 execs1 results gen 0 err eid rest m h1]
          rw [step_go_unit_error env si snap execs2 execs2 results gen 0 err eid rest m h2]
          rw [Nat.add_zero]
          obtain ⟨R, E, hh1, hh2, hk⟩ := ih execs1 execs2 hagree2 hdet2 results gen
            (some (err.getD ("Error executing " ++ eid ++ ": " ++ m)))
          refine ⟨R, E, hh1, hh2, fun k hkk => ?_⟩
          rcases hk k hkk with hh | hh
          · exact Or.inl hh
          · exact Or.inr (List.mem_cons_of_mem _ hh)

theorem engine_steps_det_two (env : Executors) (si : List (String × Value)) :
    ∀ (ss : List (List String)) (execs1 execs2 : List (String × Executable)),
      (∀ eid ∈ ss.flatten, alookup execs1 eid = alookup execs2 eid) →
      (∀ eid ∈ ss.flatten, ∃ e, alookup execs1 eid = some e ∧ e.isDetNode = true) →
      ∀ (results : List (String × Value)) (gen : Nat),
      ∃ R E,
        engine_steps env si ⟨execs1, results, gen⟩ ss = (⟨execs1, R, gen⟩, E)
        ∧ engine_steps env si ⟨execs2, results, gen⟩ ss = (⟨execs2, R, gen⟩, E)
        ∧ (∀ k, hasKey R k = true → hasKey results k = true ∨ k ∈ ss.flatten) := by
  intro ss
  induction ss with
  | nil =>
      intro execs1 execs2 _ _ results gen
      exact ⟨results, none, rfl, rfl, fun k h => Or.inl h⟩
  | cons ids rest ih =>
      intro execs1 execs2 hagree hdet results gen
      have hidsmem : ∀ eid ∈ ids, eid ∈ (ids :: rest).flatten := by
        intro eid h
        rw [List.flatten_cons]
        exact List.mem_append.mpr (Or.inl h)
      have hrestmem : ∀ eid ∈ rest.flatten, eid ∈ (ids :: rest).flatten := by
        intro eid h
        rw [List.flatten_cons]
        exact List.mem_append.mpr (Or.inr h)
      obtain ⟨R1, E1, hs1, hs2, hk1⟩ := step_go_det_two env si results ids execs1 execs2
        (fun eid h => hagree eid (hidsmem eid h))
        (fun eid h => hdet eid (hidsmem eid h)) results gen none
      cases E1 with
      | some m =>
          refine ⟨R1, some m, ?_, ?_, fun k hkk => ?_⟩
          · unfold engine_steps _execute_step
            simp only [hs1]
          · unfold engine_steps _execute_step
            simp only [hs2]
          · rcases hk1 k hkk with hh | hh
            · exact Or.inl hh
            · exact Or.inr (hidsmem k hh)
      | none =>
          obtain ⟨R, E, hh1, hh2, hk⟩ := ih execs1 execs2
            (fun eid h => hagree eid (hrestmem eid h))
            (fun eid h => hdet eid (hrestmem eid h)) R1 gen
          refine ⟨R, E, ?_, ?_, fun k hkk => ?_⟩
          · unfold engine_steps _execute_step
            simp only [hs1]
            exact hh1
          · unfold engine_steps _execute_step
            simp only [hs2]
            exact hh2
          · rcases hk k hkk with hh | hh
            · rcases hk1 k hh with h3 | h3
              · exact Or.inl h3
              · exact Or.inr (hidsmem k h3)
            · exact Or.inr (hrestmem k hh)

theorem engine_steps_append (env : Executors) (si : List (String × Value))
    (xs ys : List (List String)) :
    ∀ st, engine_steps env si st (xs ++ ys) =
      match engine_steps env si st xs with
      | (st2, none) => engine_steps env si st2 ys
      | (st2, some m) => (st2, some m) := by
  have hcons : ∀ (st : EngineState) (ids : List String) (rest2 : List (List String)),
      engine_steps env si st (ids :: rest2) =
        match _execute_step env si st ids with
        | (st2, none) => engine_steps env si st2 rest2
        | (st2, some m) => (st2, some m) := fun _ _ _ => rfl
  induction xs with
  | nil => intro st; rfl
  | cons ids rest ih =>
      intro st
      rw [List.cons_append, hcons st ids (rest ++ ys), hcons st ids rest]
      rcases hs : _execute_step env si st ids with ⟨st1, e1⟩
      cases e1 with
      | none => exact ih st1
      | some m => rfl

theorem engine_steps_cons (env : Executors) (si : List (String × Value))
    (st : EngineState) (ids : List String) (rest : List (List String)) :
    engine_steps env si st (ids :: rest) =
      match _execute_step env si st ids with
      | (st2, none) => engine_steps env si st2 rest
      | (st2, some m) => (st2, some m) := rfl

/-- C1: a Render unit with a non-empty cached script executed while the
run is deterministic reuses the cache — no generator call, no state
change, result equal to the cached text. Consequently a blueprint of
deterministic (Query/Script) steps followed by one Render step, run twice
from fresh (empty-input) simulations, calls the generator exactly once on
the first run, persists the script, and the second run makes zero
generator calls and reproduces the identical result mapping (in
particular byte-identical Render output text). The generator collaborator
is assumed to return non-empty script text, and the second run starts
from the executables mapping the first run left behind (the shared
blueprint/store state). -/
theorem C1_cached_script_reuse :
    (∀ (env : Executors) (execs : List (String × Executable)) (R : List (String × Value))
        (exec_id oid oname : String) (odesc : Option String) (ct : ChartType)
        (vdesc s : String) (input w : Value),
        s ≠ "" → _check_if_inputs_deterministic execs R = true →
        env.execute_output s input = Except.ok w →
        _execute_executable env execs R exec_id
            (Executable.output oid oname odesc ct vdesc (some s)) input =
          ⟨execs, 0, Except.ok (Value.str s)⟩)
    ∧ (∀ (env : Executors) (execs : List (String × Executable)) (ss : List (List String))
        (r oid rname : String) (rdesc : Option String) (ct : ChartType) (vdesc : String)
        (st1 : EngineState),
        (∀ eid ∈ ss.flatten, ∃ e, alookup execs eid = some e ∧ e.isDetNode = true) →
        alookup execs r = some (Executable.output oid rname rdesc ct vdesc none) →
        (∀ n d i t, env.generate_python_script n d i = Except.ok t → t ≠ "") →
        engine_execute env execs (ss ++ [[r]]) [] = (st1, none) →
        st1.gen_calls = 1
        ∧ ∃ script, script ≠ ""
          ∧ alookup st1.results r = some (Value.str script)
          ∧ alookup st1.execs r =
              some (Executable.output oid rname rdesc ct vdesc (some script))
          ∧ engine_execute env st1.execs (ss ++ [[r]]) [] =
              (⟨st1.execs, st1.results, 0⟩, none)) := by
  constructor
  · intro env execs R exec_id oid oname odesc ct vdesc s input w hs hdet ho
    have hbne : (s != "") = true := bne_iff_ne.mpr hs
    simp [_execute_executable, hdet, hbne, ho]
  · intro env execs ss r oid rname rdesc ct vdesc st1 hdet hr hgennz hrun
    have hrnot : ∀ eid ∈ ss.flatten, eid ≠ r := by
      intro eid hmem heq
      obtain ⟨e, he, hd⟩ := hdet eid hmem
      rw [heq, hr] at he
      cases he
      simp [Executable.isDetNode] at hd
    obtain ⟨R, E, hpre, _, hkey⟩ := engine_steps_det_two env [] ss execs execs
      (fun _ _ => rfl) hdet [] 0
    have hkey2 : ∀ k, hasKey R k = true → k ∈ ss.flatten := by
      intro k hk
      rcases hkey k hk with h1 | h1
      · simp [hasKey, alookup] at h1
      · exact h1
    have happ := engine_steps_append env [] ss [[r]] ⟨execs, [], 0⟩
    rw [hpre] at happ
    cases E with
    | some m =>
        exfalso
        have happ2 : engine_steps env [] ⟨execs, [], 0⟩ (ss ++ [[r]]) =
            (⟨execs, R, 0⟩, some m) := happ
        unfold engine_execute at hrun
        rw [happ2] at hrun
        simp at hrun
    | none =>
        have happ2 : engine_steps env [] ⟨execs, [], 0⟩ (ss ++ [[r]]) =
            engine_steps env [] ⟨execs, R, 0⟩ [[r]] := happ
        have hchk : _check_if_inputs_deterministic execs R = true :=
          check_det_of_keys execs R ss.flatten hkey2 hdet
        cases hg : env.generate_python_script (rname ++ " Script")
            ("Create " ++ chart_value ct ++ " visualization: " ++ vdesc)
            (py_str (_gather_inputs_from_previous_steps [] R r)) with
        | error m =>
            exfalso
            have hsingleE : _execute_single env [] execs R r =
                ⟨execs, 1, Except.error m⟩ := by
              simp [_execute_single, hr, _execute_executable, hchk, hg]
            have hstepE : engine_steps env [] ⟨execs, R, 0⟩ [[r]] =
                (⟨execs, R, 0 + 1⟩,
                  some ("Error executing " ++ r ++ ": " ++ m)) := by
              rw [engine_steps_cons]
              have h2 : _execute_step env [] ⟨execs, R, 0⟩ [r] =
                  (⟨execs, R, 0 + 1⟩,
                    some ("Error executing " ++ r ++ ": " ++ m)) := by
                unfold _execute_step
                rw [step_go_unit_error env [] R execs execs R 0 1 none r [] m hsingleE]
                rfl
              rw [h2]
            unfold engine_execute at hrun
            rw [happ2, hstepE] at hrun
            simp at hrun
        | ok script =>
            cases ho : env.execute_output script
                (_gather_inputs_from_previous_steps [] R r) with
            | error m2 =>
                exfalso
                have hsingleE : _execute_single env [] execs R r =
                    ⟨upsert execs r
                        (Executable.output oid rname rdesc ct vdesc (some script)),
                      1, Except.error m2⟩ := by
                  simp [_execute_single, hr, _execute_executable, hchk, hg, ho]
                have hstepE : engine_steps env [] ⟨execs, R, 0⟩ [[r]] =
                    (⟨upsert execs r
                        (Executable.output oid rname rdesc ct vdesc (some script)),
                      R, 0 + 1⟩,
                      some ("Error executing " ++ r ++ ": " ++ m2)) := by
                  rw [engine_steps_cons]
                  have h2 : _execute_step env [] ⟨execs, R, 0⟩ [r] =
                      (⟨upsert execs r
                          (Executable.output oid rname rdesc ct vdesc (some script)),
                        R, 0 + 1⟩,
                        some ("Error executing " ++ r ++ ": " ++ m2)) := by
                    unfold _execute_step
                    rw [step_go_unit_error env [] R execs
                      (upsert execs r
                        (Executable.output oid rname rdesc ct vdesc (some script)))
                      R 0 1 none r [] m2 hsingleE]
                    rfl
                  rw [h2]
                unfold engine_execute at hrun
                rw [happ2, hstepE] at hrun
                simp at hrun
            | ok w =>
                have hsingle1 : _execute_single env [] execs R r =
                    ⟨upsert execs r
                        (Executable.output oid rname rdesc ct vdesc (some script)),
                      1, Except.ok (Value.str script)⟩ := by
                  simp [_execute_single, hr, _execute_executable, hchk, hg, ho]
                have hstep1 : engine_steps env [] ⟨execs, R, 0⟩ [[r]] =
                    (⟨upsert execs r
                        (Executable.output oid rname rdesc ct vdesc (some script)),
                      upsert R r (Value.str script), 1⟩, none) := by
                  rw [engine_steps_cons]
                  have h2 : _execute_step env [] ⟨execs, R, 0⟩ [r] =
                      (⟨upsert execs r
                          (Executable.output oid rname rdesc ct vdesc (some script)),
                        upsert R r (Value.str script), 0 + 1⟩, none) := by
                    unfold _execute_step
                    rw [step_go_unit_ok env [] R execs
                      (upsert execs r
                        (Executable.output oid rname rdesc ct vdesc (some script)))
                      R 0 1 none r [] (Value.str script) hsingle1]
                    rfl
                  rw [h2]
                  rfl
                have hrun1 : engine_execute env execs (ss ++ [[r]]) [] =
                    (⟨upsert execs r
                        (Executable.output oid rname rdesc ct vdesc (some script)),
                      upsert R r (Value.str script), 1⟩, none) := by
                  unfold engine_execute
                  rw [happ2, hstep1]
                have hst1 : st1 =
                    ⟨upsert execs r
                        (Executable.output oid rname rdesc ct vdesc (some script)),
                      upsert R r (Value.str script), 1⟩ :=
                  congrArg Prod.fst (hrun.symm.trans hrun1)
                subst hst1
                refine ⟨rfl, script, hgennz _ _ _ _ hg, ?_, ?_, ?_⟩
                · exact alookup_upsert_self R r (Value.str script)
                · exact alookup_upsert_self execs r _
                · have hagree : ∀ eid ∈ ss.flatten,
                      alookup execs eid =
                        alookup (upsert execs r
                          (Executable.output oid rname rdesc ct vdesc (some script))) eid :=
                    fun eid h =>
                      (alookup_upsert_of_ne execs
                        (Executable.output oid rname rdesc ct vdesc (some script))
                        (Ne.symm (hrnot eid h))).symm
                  obtain ⟨R2, E2, hp1, hp2, _⟩ := engine_steps_det_two env [] ss execs
                    (upsert execs r
                      (Executable.output oid rname rdesc ct vdesc (some script)))
                    hagree hdet [] 0
                  have hcomp := hp1.symm.trans hpre
                  have hR2 : R2 = R := congrArg (fun p => (Prod.fst p).results) hcomp
                  have hE2 : E2 = none := congrArg Prod.snd hcomp
                  rw [hR2, hE2] at hp2
                  have hdet2 : ∀ eid ∈ ss.flatten, ∃ e,
                      alookup (upsert execs r
                        (Executable.output oid rname rdesc ct vdesc (some script))) eid =
                        some e ∧ e.isDetNode = true := by
                    intro eid h
                    obtain ⟨e, he, hd⟩ := hdet eid h
                    exact ⟨e, by rw [← hagree eid h]; exact he, hd⟩
                  have hchk2 : _check_if_inputs_deterministic
                      (upsert execs r
                        (Executable.output oid rname rdesc ct vdesc (some script))) R = true :=
                    check_det_of_keys _ R ss.flatten hkey2 hdet2
                  have hbne : (script != "") = true := bne_iff_ne.mpr (hgennz _ _ _ _ hg)
                  have hsingle2 : _execute_single env []
                      (upsert execs r
                        (Executable.output oid rname rdesc ct vdesc (some script))) R r =
                      ⟨upsert execs r
                        (Executable.output oid rname rdesc ct vdesc (some script)),
                        0, Except.ok (Value.str script)⟩ := by
                    simp [_execute_single, alookup_upsert_self, _execute_executable,
                      hchk2, hbne, ho]
                  have hstep2 : engine_steps env []
                      ⟨upsert execs r
                        (Executable.output oid rname rdesc ct vdesc (some script)),
                        R, 0⟩ [[r]] =
                      (⟨upsert execs r
                          (Executable.output oid rname rdesc ct vdesc (some script)),
                        upsert R r (Value.str script), 0⟩, none) := by
                    rw [engine_steps_cons]
                    have h2 : _execute_step env []
                        ⟨upsert execs r
                          (Executable.output oid rname rdesc ct vdesc (some script)),
                          R, 0⟩ [r] =
                        (⟨upsert execs r
                            (Executable.output oid rname rdesc ct vdesc (some script)),
                          upsert R r (Value.str script), 0 + 0⟩, none) := by
                      unfold _execute_step
                      rw [step_go_unit_ok env [] R
                        (upsert execs r
                          (Executable.output oid rname rdesc ct vdesc (some script)))
                        (upsert execs r
                          (Executable.output oid rname rdesc ct vdesc (some script)))
                        R 0 0 none r [] (Value.str script) hsingle2]
                      rfl
                    rw [h2]
                    rfl
                  have happB := engine_steps_append env [] ss [[r]]
                    ⟨upsert execs r
                      (Executable.output oid rname rdesc ct vdesc (some script)), [], 0⟩
                  rw [hp2] at happB
                  have happB2 : engine_steps env []
                      ⟨upsert execs r
                        (Executable.output oid rname rdesc ct vdesc (some script)),
                        [], 0⟩ (ss ++ [[r]]) =
                      engine_steps env []
                        ⟨upsert execs r
                          (Executable.output oid rname rdesc ct vdesc (some script)),
                          R, 0⟩ [[r]] := happB
                  show engine_execute env
                      (upsert execs r
                        (Executable.output oid rname rdesc ct vdesc (some script)))
                      (ss ++ [[r]]) [] =
                    (⟨upsert execs r
                        (Executable.output oid rname rdesc ct vdesc (some script)),
                      upsert R r (Value.str script), 0⟩, none)
                  unfold engine_execute
                  rw [happB2, hstep2]

/-- Executables of a blueprint with two query nodes followed by a render
node with no cached script yet. -/
def execsOut : List (String × Executable) :=
  [("A", Executable.sql "A" "price data" none "qa"),
   ("B", Executable.sql "B" "sentiment data" none "qb"),
   ("r", Executable.output "r" "viz" none ChartType.line_chart "d" none)]

/-- The engine state after the first run of the blueprint over execsOut:
both query results recorded, the generated script cached on the render
node and returned as its result, one generator call made. -/
def st1c : EngineState :=
  ⟨upsert execsOut "r"
      (Executable.output "r" "viz" none ChartType.line_chart "d"
        (some "script for viz Script")),
    [("A", Value.str "sql:qa"), ("B", Value.str "sql:qb"),
     ("r", Value.str "script for viz Script")], 1⟩

/-- Witness for C1: the unit-level cache hit on a concrete cached render
node, and the two-run scenario on the concrete query-query-render
blueprint (one generator call and a persisted script on run one, zero
generator calls and the identical result mapping on run two). -/
theorem C1_cached_script_reuse_witness :
    (_execute_executable envT execsT [] "r"
        (Executable.output "r" "viz" none ChartType.table "d" (some "cached")) Value.null =
      ⟨execsT, 0, Except.ok (Value.str "cached")⟩)
    ∧ (st1c.gen_calls = 1
      ∧ ∃ script, script ≠ ""
        ∧ alookup st1c.results "r" = some (Value.str script)
        ∧ alookup st1c.execs "r" =
            some (Executable.output "r" "viz" none ChartType.line_chart "d" (some script))
        ∧ engine_execute envT st1c.execs ([["A", "B"]] ++ [["r"]]) [] =
            (⟨st1c.execs, st1c.results, 0⟩, none)) :=
  ⟨C1_cached_script_reuse.1 envT execsT [] "r" "r" "viz" none ChartType.table "d"
      "cached" Value.null (Value.str "rendered") (by decide) (by decide) rfl,
   C1_cached_script_reuse.2 envT execsOut [["A", "B"]] "r" "r" "viz" none
      ChartType.line_chart "d" st1c
      (by
        intro eid h
        fin_cases h
        · exact ⟨Executable.sql "A" "price data" none "qa", rfl, rfl⟩
        · exact ⟨Executable.sql "B" "sentiment data" none "qb", rfl, rfl⟩)
      rfl
      (by
        intro n d i t h
        injection h with h2
        intro hc
        rw [← h2] at hc
        have hlen : ("script for " ++ n).length = 0 := by rw [hc]; rfl
        rw [String.length_append] at hlen
        have h11 : "script for ".length = 11 := rfl
        rw [h11] at hlen
        omega)
      rfl⟩

end StrategyFactory
